import Mathlib

/-!
# Verification of the cacheout cache engine (src/src/cacheout)

Shallow embedding of the cache engine from `cache.py` together with the
LRU variant (`lru.py`) and the memoization key derivation
(`_make_memoize_key`).  Cache entries live in an insertion-ordered
association list mirroring Python's `OrderedDict`; the expiration index
mirrors the `_expire_times` dict.  Keys are modelled as strings (the
claims under verification do not depend on the key type; memoization
keys are strings in the source).  The re-entrant lock of the source is
elided: every public method is `with self._lock: self._<method>(...)`,
so the model equates the public method with its underscored body.

Values are modelled by `PyVal` (ints, integral floats and strings cover
every value the claims mention).  Fallible operations return `Except`.
-/

namespace Cacheout

/-- Python values stored in the cache or passed as function arguments.
Floats are modelled only at integral points (the claims use `1.0`),
recording the integer the float equals. -/
inductive PyVal where
  | pyInt (n : Int)
  | pyFloat (n : Int)
  | pyStr (s : String)
  deriving DecidableEq, Repr

/-- Python type objects that can appear in a memoization key
(`type(arg)` in `_make_memoize_key`). -/
inductive PyTy where
  | int
  | float
  | str
  deriving DecidableEq, Repr

/-- `type(v)` for the modelled values. -/
def PyVal.typeOf : PyVal → PyTy
  | .pyInt _ => .int
  | .pyFloat _ => .float
  | .pyStr _ => .str

/-- `hasattr(v, "__dict__")`: instances of the builtin types int, float
and str carry no `__dict__`, so this is `false` on the modelled value
domain. -/
def PyVal.hasDict : PyVal → Bool := fun _ => false

/-- The `default` argument of `Cache.get`/`Cache._get`: Python `None`,
the module-level `UNSET` sentinel, the per-decorator `marker` object
used by `memoize`, a plain value, or a callable invoked with the key. -/
inductive GetDefault where
  | none
  | unset
  | marker
  | value (v : PyVal)
  | fn (f : String → PyVal)

/-- Possible results of `Cache._get`: Python `None`, the `UNSET`
sentinel, the memoize `marker`, or a stored value. -/
inductive PyRet where
  | pynone
  | unset
  | marker
  | val (v : PyVal)
  deriving DecidableEq, Repr

/-! ## Association-list model of `dict` / `OrderedDict`

Python dict keys are unique; on key-unique lists the operations below
coincide with dict semantics.  `alistErase` removes every binding of
the key (on key-unique lists, exactly the one binding `del d[k]`
removes), which keeps the lemmas hypothesis-free. -/

/-- `d[k]` / `d.get(k)`: first binding of `k`. -/
def alistLookup {α : Type} (l : List (String × α)) (k : String) : Option α :=
  match l with
  | [] => Option.none
  | (k', v) :: rest => if k' = k then some v else alistLookup rest k

/-- `del d[k]` (ignoring the missing-key error, which callers in
`cache.py` always catch): drop the binding of `k`. -/
def alistErase {α : Type} : List (String × α) → String → List (String × α)
  | [], _ => []
  | p :: rest, k => if p.1 = k then alistErase rest k else p :: alistErase rest k

/-- `d[k] = v`: update in place when present, append when absent
(`OrderedDict` keeps the position of an updated key). -/
def alistSet {α : Type} (l : List (String × α)) (k : String) (v : α) : List (String × α) :=
  match alistLookup l k with
  | some _ => l.map (fun p => if p.1 = k then (k, v) else p)
  | Option.none => l ++ [(k, v)]

theorem alistLookup_eraseSame {α : Type} (l : List (String × α)) (k : String) :
    alistLookup (alistErase l k) k = Option.none := by
  induction l with
  | nil => rfl
  | cons p rest ih =>
    by_cases h : p.1 = k
    · simpa [alistErase, h] using ih
    · simpa [alistErase, h, alistLookup] using ih

theorem alistLookup_eraseOther {α : Type} (l : List (String × α)) (k k' : String)
    (h : k' ≠ k) : alistLookup (alistErase l k) k' = alistLookup l k' := by
  induction l with
  | nil => rfl
  | cons p rest ih =>
    by_cases hp : p.1 = k
    · have hne : k ≠ k' := fun hcon => h hcon.symm
      simp [alistErase, hp, alistLookup, hne, ih]
    · by_cases hk' : p.1 = k'
      · simp [alistErase, hp, alistLookup, hk', h]
      · simp [alistErase, hp, alistLookup, hk', ih]

theorem alistLookup_append_right {α : Type} (l l' : List (String × α)) (k : String)
    (h : alistLookup l k = Option.none) :
    alistLookup (l ++ l') k = alistLookup l' k := by
  induction l with
  | nil => rfl
  | cons p rest ih =>
    by_cases hp : p.1 = k
    · simp [alistLookup, hp] at h
    · simp [alistLookup, hp] at h ⊢
      exact ih h

theorem alistLookup_append_left {α : Type} (l l' : List (String × α)) (k : String)
    (v : α) (h : alistLookup l k = some v) :
    alistLookup (l ++ l') k = some v := by
  induction l with
  | nil => simp [alistLookup] at h
  | cons p rest ih =>
    by_cases hp : p.1 = k
    · simp [alistLookup, hp] at h ⊢
      exact h
    · simp [alistLookup, hp] at h ⊢
      exact ih h

theorem alistLookup_set_same {α : Type} (l : List (String × α)) (k : String) (v : α) :
    alistLookup (alistSet l k v) k = some v := by
  unfold alistSet
  cases hl : alistLookup l k with
  | none =>
    rw [alistLookup_append_right l _ k hl]
    simp [alistLookup]
  | some w =>
    induction l with
    | nil => simp [alistLookup] at hl
    | cons p rest ih =>
      by_cases hp : p.1 = k
      · simp only [List.map, if_pos hp]
        simp [alistLookup]
      · simp only [alistLookup, if_neg hp] at hl
        simp only [List.map, if_neg hp]
        simp only [alistLookup, if_neg hp]
        exact ih hl

theorem alistErase_length_le {α : Type} (l : List (String × α)) (k : String) :
    (alistErase l k).length ≤ l.length := by
  induction l with
  | nil => exact Nat.le_refl _
  | cons p rest ih =>
    by_cases hp : p.1 = k
    · simp only [alistErase, if_pos hp]
      exact Nat.le_succ_of_le ih
    · simp only [alistErase, if_neg hp, List.length_cons]
      exact Nat.succ_le_succ ih

theorem alistErase_length_lt {α : Type} (l : List (String × α)) (k : String) (v : α)
    (h : alistLookup l k = some v) :
    (alistErase l k).length < l.length := by
  induction l with
  | nil => simp [alistLookup] at h
  | cons p rest ih =>
    by_cases hp : p.1 = k
    · simp only [alistErase, if_pos hp, List.length_cons]
      exact Nat.lt_succ_of_le (alistErase_length_le rest k)
    · simp only [alistLookup, if_neg hp] at h
      simp only [alistErase, if_neg hp, List.length_cons]
      exact Nat.succ_lt_succ (ih h)

/-! ## The cache state

`Cache.__init__` stores the configuration (`maxsize`, `ttl`, `timer`,
`default`) and `Cache.setup` creates the entry store `_cache` and the
expiration index `_expire_times`.  The injected `timer` callable is
modelled by the field `now`: calling `self.timer()` reads `now`, and a
test advancing its fake timer corresponds to bumping `now` between
operations. -/
structure Cache where
  cache : List (String × PyVal)
  expireTimes : List (String × Int)
  maxsize : Int
  ttl : Int
  now : Int
  default : GetDefault

/-- `Cache.expired(key, expires_on)`.  The source guards with
`if not expires_on: expires_on = self.timer()`, so both an omitted
argument and the falsy timestamp `0` are replaced by the current timer
value.  A key without a recorded expiry is "expired" iff it is absent
from the entry store. -/
def Cache.expired (s : Cache) (key : String) (expiresOn : Option Int) : Bool :=
  let e : Int :=
    match expiresOn with
    | Option.none => s.now
    | some t => if t = 0 then s.now else t
  match alistLookup s.expireTimes key with
  | some exp => exp ≤ e
  | Option.none => (alistLookup s.cache key).isNone

/-- `Cache._delete(key)`: remove the key from the entry store and the
expiration index, returning 1 iff the key was stored. -/
def Cache.delete (s : Cache) (key : String) : Cache × Nat :=
  let count := if (alistLookup s.cache key).isSome then 1 else 0
  ({ s with cache := alistErase s.cache key
            expireTimes := alistErase s.expireTimes key }, count)

/-- The loop of `Cache._delete_expired`: iterate over a snapshot of
`_expire_times`, deleting each key whose expiration is `≤ expires_on`. -/
def Cache.deleteExpiredLoop (expiresOn : Int) : Cache × Nat → List (String × Int) → Cache × Nat
  | acc, [] => acc
  | (s, c), (key, expiration) :: rest =>
    if expiration ≤ expiresOn then
      let (s', c') := Cache.delete s key
      Cache.deleteExpiredLoop expiresOn (s', c + c') rest
    else Cache.deleteExpiredLoop expiresOn (s, c) rest

/-- `Cache._delete_expired()`: return 0 when there are no TTL entries;
otherwise snapshot a single `expires_on := timer()` and delete every
key whose recorded expiration is `≤ expires_on`. -/
def Cache.delete_expired (s : Cache) : Cache × Nat :=
  if s.expireTimes = [] then (s, 0)
  else Cache.deleteExpiredLoop s.now (s, 0) s.expireTimes

/-- `Cache.full()`: false when `maxsize ≤ 0`, else `len(cache) ≥ maxsize`.
(The `maxsize is None` guard of the source is unreachable after a valid
`configure`, which only stores integers.) -/
def Cache.full (s : Cache) : Bool :=
  if s.maxsize ≤ 0 then false else (s.cache.length : Int) ≥ s.maxsize

/-- `Cache._popitem()`: pop the replacement-policy "next" key — for the
base (FIFO) cache `next(iter(self._cache))`, the front of the eviction
queue — raising `KeyError` on an empty store. -/
def Cache.popitem_ (s : Cache) : Except String (Cache × (String × PyVal)) :=
  match s.cache with
  | [] => .error "popitem(): cache is empty"
  | (k, v) :: _ => .ok ((Cache.delete s k).1, (k, v))

/-- The `while self.full(): self._popitem()` loop of `Cache.evict`,
with fuel bounding the iteration count (each pop removes an entry, so
`s.cache.length` fuel is enough; the `except KeyError: break` branch is
the error case). -/
def Cache.evictLoop : Nat → Cache → Nat → Cache × Nat
  | 0, s, count => (s, count)
  | fuel + 1, s, count =>
    if s.full then
      match Cache.popitem_ s with
      | .ok (s', _) => Cache.evictLoop fuel s' (count + 1)
      | .error _ => (s, count)
    else (s, count)

/-- `Cache.evict()`: delete all expired entries first, then remove
policy victims while the cache is full. -/
def Cache.evict (s : Cache) : Cache × Nat :=
  let (s1, count) := s.delete_expired
  if ¬ s1.full then (s1, count)
  else Cache.evictLoop s1.cache.length s1 count

/-- `Cache._set(key, value, ttl)` (the public `set` minus the lock).
`ttl=None` falls back to the configured default TTL; eviction runs only
when the key is new; the old binding and expiry are dropped before the
value is appended at the fresh end of the queue; a positive resolved
TTL records `timer() + ttl` (`if ttl and ttl > 0` — the falsy value 0
records nothing).  The `path_cache` persistence branch is disabled
(`path_cache=None`) as in every in-memory call site. -/
def Cache.set (s : Cache) (key : String) (value : PyVal) (ttl : Option Int) : Cache :=
  let t := ttl.getD s.ttl
  let s1 := if (alistLookup s.cache key).isNone then (Cache.evict s).1 else s
  let s2 := (Cache.delete s1 key).1
  let s3 := { s2 with cache := alistSet s2.cache key value }
  if t > 0 then { s3 with expireTimes := alistSet s3.expireTimes key (s3.now + t) }
  else s3

/-- `Cache._get(key, default)` (the public `get` minus the lock, with
the persistence branch disabled: `path_cache is None` raises into the
default-resolution handler).  A present-but-expired key is deleted and
treated as a miss.  On a miss, a per-call default of `None` is replaced
by the instance default; a callable default is invoked with the key and
its result stored via `_set`. -/
def Cache.get (s : Cache) (key : String) (default : GetDefault) : PyRet × Cache :=
  let miss : Cache → PyRet × Cache := fun sm =>
    let d := match default with
             | GetDefault.none => sm.default
             | _ => default
    match d with
    | GetDefault.fn f =>
      let v := f key
      (.val v, Cache.set sm key v Option.none)
    | GetDefault.none => (.pynone, sm)
    | GetDefault.unset => (.unset, sm)
    | GetDefault.marker => (.marker, sm)
    | GetDefault.value v => (.val v, sm)
  match alistLookup s.cache key with
  | some v =>
    if s.expired key Option.none then miss (Cache.delete s key).1
    else (.val v, s)
  | Option.none => miss s

/-- The default value of the `default` parameter of `Cache.get`
(cache.py: `default: t.Any = None`) — an omitted per-call default is
Python `None`. -/
def Cache.getDefaultOmitted : GetDefault := GetDefault.none

/-- `Cache._has(key)`: `self._get(key, default=UNSET) is not UNSET`. -/
def Cache.has (s : Cache) (key : String) : Bool × Cache :=
  let (r, s') := s.get key GetDefault.unset
  (match r with
   | .unset => false
   | _ => true, s')

/-- `Cache.popitem()`: delete expired entries, then pop the policy's
next key. -/
def Cache.popitem (s : Cache) : Except String (Cache × (String × PyVal)) :=
  Cache.popitem_ s.delete_expired.1

/-- `Cache.__init__(maxsize, ttl, timer, default)`: an empty entry
store and expiration index under the given configuration (the injected
`timer` is modelled by the initial `now`). -/
def Cache.init (maxsize ttl now : Int) (default : GetDefault) : Cache :=
  { cache := [], expireTimes := [], maxsize := maxsize, ttl := ttl,
    now := now, default := default }

/-- `OrderedDict.move_to_end(key)`: detach the binding and re-append it
at the freshest end of the queue (callers guard with
`if key in self._cache`, so the missing-key case is a no-op here). -/
def moveToEnd (l : List (String × PyVal)) (k : String) : List (String × PyVal) :=
  match alistLookup l k with
  | some v => alistErase l k ++ [(k, v)]
  | Option.none => l

/-- `LRUCache.get(key, default)` (lru.py): `super().get(...)`, then
`if key in self._cache: self._cache.move_to_end(key)`. -/
def LRUCache.get (s : Cache) (key : String) (default : GetDefault) : PyRet × Cache :=
  let (v, s') := Cache.get s key default
  if (alistLookup s'.cache key).isSome then
    (v, { s' with cache := moveToEnd s'.cache key })
  else (v, s')

/-- `LRUCache.has`: lru.py overrides only `get`; `has`, `_has` and
`_get` are inherited from `Cache`, so an LRU membership test runs the
base `Cache._get` and never calls `move_to_end`. -/
def LRUCache.has (s : Cache) (key : String) : Bool × Cache := Cache.has s key

/-- `MRUCache.get`: mru.py overrides only `__next__`; `get` is
inherited unchanged from `LRUCache`. -/
def MRUCache.get (s : Cache) (key : String) (default : GetDefault) : PyRet × Cache :=
  LRUCache.get s key default

/-! ## Basic facts about the operations -/

theorem Cache.deleteExpiredLoop_now (eo : Int) (ps : List (String × Int)) :
    ∀ (s : Cache) (c : Nat), (Cache.deleteExpiredLoop eo (s, c) ps).1.now = s.now := by
  induction ps with
  | nil => intro s c; rfl
  | cons p rest ih =>
    intro s c
    by_cases h : p.2 ≤ eo
    · simpa [Cache.deleteExpiredLoop, h] using ih _ _
    · simpa [Cache.deleteExpiredLoop, h] using ih s c

theorem Cache.deleteExpiredLoop_maxsize (eo : Int) (ps : List (String × Int)) :
    ∀ (s : Cache) (c : Nat),
      (Cache.deleteExpiredLoop eo (s, c) ps).1.maxsize = s.maxsize := by
  induction ps with
  | nil => intro s c; rfl
  | cons p rest ih =>
    intro s c
    by_cases h : p.2 ≤ eo
    · simpa [Cache.deleteExpiredLoop, h] using ih _ _
    · simpa [Cache.deleteExpiredLoop, h] using ih s c

theorem Cache.delete_expired_now (s : Cache) : s.delete_expired.1.now = s.now := by
  unfold Cache.delete_expired
  by_cases h : s.expireTimes = []
  · simp [h]
  · simpa [h] using Cache.deleteExpiredLoop_now s.now s.expireTimes s 0

theorem Cache.delete_expired_maxsize (s : Cache) :
    s.delete_expired.1.maxsize = s.maxsize := by
  unfold Cache.delete_expired
  by_cases h : s.expireTimes = []
  · simp [h]
  · simpa [h] using Cache.deleteExpiredLoop_maxsize s.now s.expireTimes s 0

theorem Cache.evictLoop_now (fuel : Nat) :
    ∀ (s : Cache) (c : Nat), (Cache.evictLoop fuel s c).1.now = s.now := by
  induction fuel with
  | zero => intro s c; rfl
  | succ fuel ih =>
    intro s c
    by_cases h : s.full
    · cases hc : s.cache with
      | nil => simp [Cache.evictLoop, h, Cache.popitem_, hc]
      | cons p rest =>
        simpa [Cache.evictLoop, h, Cache.popitem_, hc] using ih _ _
    · simp [Cache.evictLoop, h]

theorem Cache.evictLoop_maxsize (fuel : Nat) :
    ∀ (s : Cache) (c : Nat), (Cache.evictLoop fuel s c).1.maxsize = s.maxsize := by
  induction fuel with
  | zero => intro s c; rfl
  | succ fuel ih =>
    intro s c
    by_cases h : s.full
    · cases hc : s.cache with
      | nil => simp [Cache.evictLoop, h, Cache.popitem_, hc]
      | cons p rest =>
        simpa [Cache.evictLoop, h, Cache.popitem_, hc] using ih _ _
    · simp [Cache.evictLoop, h]

theorem Cache.evict_now (s : Cache) : (Cache.evict s).1.now = s.now := by
  unfold Cache.evict
  by_cases h : s.delete_expired.1.full
  · simpa [h] using
      (Cache.evictLoop_now _ _ _).trans (Cache.delete_expired_now s)
  · simpa [h] using Cache.delete_expired_now s

theorem Cache.evict_maxsize (s : Cache) : (Cache.evict s).1.maxsize = s.maxsize := by
  unfold Cache.evict
  by_cases h : s.delete_expired.1.full
  · simpa [h] using
      (Cache.evictLoop_maxsize _ _ _).trans (Cache.delete_expired_maxsize s)
  · simpa [h] using Cache.delete_expired_maxsize s

/-! ## Claim C2 — the FIFO eviction scenario -/

/-- The cache of the C2 scenario: `Cache(maxsize=2)` followed by
`set("a", 1)`, `set("b", 2)`, `set("c", 3)`. -/
def c2Cache : Cache :=
  (((Cache.init 2 0 100 GetDefault.none).set "a" (.pyInt 1) Option.none).set "b"
        (.pyInt 2) Option.none).set
    "c" (.pyInt 3) Option.none

/-- Claim C2: on a FIFO cache with `maxsize = 2`, after
`set("a",1); set("b",2); set("c",3)` the size is exactly 2, the single
evicted key is the first-inserted `"a"` (so `has("a")` is false and the
remaining queue is `["b", "c"]`), `get("b")` returns 2 and `get("c")`
returns 3. -/
theorem c2_fifo_scenario :
    c2Cache.cache.length = 2 ∧
    (c2Cache.has "a").1 = false ∧
    alistLookup c2Cache.cache "a" = Option.none ∧
    c2Cache.cache.map Prod.fst = ["b", "c"] ∧
    (c2Cache.get "b" GetDefault.none).1 = .val (.pyInt 2) ∧
    (c2Cache.get "c" GetDefault.none).1 = .val (.pyInt 3) := by
  refine ⟨rfl, rfl, rfl, rfl, rfl, rfl⟩

/-! ## Claim C6 — the `expired` predicate -/

/-- A cache holding `"a"` with recorded expiry 5, at current time 10. -/
def c6Cache : Cache :=
  { cache := [("a", .pyInt 1)], expireTimes := [("a", 5)],
    maxsize := 256, ttl := 0, now := 10, default := GetDefault.none }

/-- Claim C6 counterexample: the claim says `expired(key, at)` is true
iff the recorded expiry is `≤ at`, for every timestamp `at`.  At the
explicit timestamp `at = 0` the guard `if not expires_on` replaces the
falsy 0 with `timer()`, so `expired("a", 0)` returns true although the
recorded expiry 5 is not `≤ 0`. -/
theorem c6_counterexample :
    c6Cache.expired "a" (some 0) = true ∧
    alistLookup c6Cache.expireTimes "a" = some 5 ∧
    ¬ ((5 : Int) ≤ 0) := by
  refine ⟨rfl, rfl, by decide⟩

/-- Claim C6 amended: for every nonzero explicit timestamp `at`,
`expired(key, at)` is true iff the key's recorded expiry is `≤ at`; an
omitted `at`, and equally the falsy timestamp 0, are replaced by the
current `timer()` value; for a key with no recorded expiry, `expired`
is true iff the key is absent from the entry store. -/
theorem c6_expired_amended (s : Cache) (k : String) :
    (∀ e t, alistLookup s.expireTimes k = some e → t ≠ 0 →
        (s.expired k (some t) = true ↔ e ≤ t)) ∧
    (s.expired k (some 0) = s.expired k Option.none) ∧
    (∀ e, alistLookup s.expireTimes k = some e →
        (s.expired k Option.none = true ↔ e ≤ s.now)) ∧
    (∀ t, alistLookup s.expireTimes k = Option.none →
        (s.expired k t = true ↔ alistLookup s.cache k = Option.none)) := by
  refine ⟨?_, ?_, ?_, ?_⟩
  · intro e t he ht
    simp [Cache.expired, he, ht]
  · simp [Cache.expired]
  · intro e he
    simp [Cache.expired, he]
  · intro t he
    cases t with
    | none => simp [Cache.expired, he, Option.isNone_iff_eq_none]
    | some x => simp [Cache.expired, he, Option.isNone_iff_eq_none]

/-- Witness for the amended C6: at the concrete cache above,
`expired("a", 7)` is true because the recorded expiry 5 is `≤ 7`. -/
theorem c6_expired_amended_witness :
    c6Cache.expired "a" (some 7) = true ↔ (5 : Int) ≤ 7 :=
  (c6_expired_amended c6Cache "a").1 5 7 rfl (by decide)

theorem Cache.set_now (s : Cache) (k : String) (v : PyVal) (ttl : Option Int) :
    (s.set k v ttl).now = s.now := by
  unfold Cache.set
  by_cases h : (alistLookup s.cache k).isNone <;>
    by_cases ht : ttl.getD s.ttl > 0 <;>
      simp [h, ht, Cache.delete, Cache.evict_now]

theorem Cache.lookup_set_self (s : Cache) (k : String) (v : PyVal) (ttl : Option Int) :
    alistLookup (s.set k v ttl).cache k = some v := by
  unfold Cache.set
  by_cases h : (alistLookup s.cache k).isNone <;>
    by_cases ht : ttl.getD s.ttl > 0 <;>
      simp [h, ht, alistLookup_set_same]

/-! ## Claim C5 — TTL resolution in `set` -/

/-- Claim C5: in `set(key, value, ttl)`, an explicit `ttl > 0` records
the absolute expiry `timer() + ttl`; an explicit `ttl = 0` clears any
existing expiry and records none (the entry no longer expires); an
omitted `ttl` behaves exactly as passing the configured default TTL. -/
theorem c5_ttl_resolution (s : Cache) (k : String) (v : PyVal) :
    (∀ t : Int, 0 < t →
        alistLookup (s.set k v (some t)).expireTimes k = some (s.now + t)) ∧
    alistLookup (s.set k v (some 0)).expireTimes k = Option.none ∧
    s.set k v Option.none = s.set k v (some s.ttl) := by
  refine ⟨?_, ?_, rfl⟩
  · intro t ht
    unfold Cache.set
    by_cases h : (alistLookup s.cache k).isNone <;>
      simp [h, ht, Cache.delete, alistLookup_set_same, Cache.evict_now]
  · unfold Cache.set
    by_cases h : (alistLookup s.cache k).isNone <;>
      simp [h, Cache.delete, alistLookup_eraseSame]

/-- Witness for C5: a fresh cache at time 100 with `set("a", 1, ttl=3)`
records expiry 103. -/
theorem c5_ttl_resolution_witness :
    alistLookup ((Cache.init 256 0 100 GetDefault.none).set "a" (.pyInt 1)
        (some 3)).expireTimes "a" = some 103 :=
  (c5_ttl_resolution (Cache.init 256 0 100 GetDefault.none) "a" (.pyInt 1)).1 3
    (by decide)

/-! ## Claim C1 — the `maxsize` bound -/

theorem alistSet_of_absent {α : Type} (l : List (String × α)) (k : String) (v : α)
    (h : alistLookup l k = Option.none) : alistSet l k v = l ++ [(k, v)] := by
  unfold alistSet
  rw [h]

theorem Cache.deleteExpiredLoop_length_le (eo : Int) (ps : List (String × Int)) :
    ∀ (s : Cache) (c : Nat),
      (Cache.deleteExpiredLoop eo (s, c) ps).1.cache.length ≤ s.cache.length := by
  induction ps with
  | nil => intro s c; exact Nat.le_refl _
  | cons p rest ih =>
    intro s c
    by_cases h : p.2 ≤ eo
    · have h1 := ih (Cache.delete s p.1).1 (c + (Cache.delete s p.1).2)
      have h2 : (Cache.delete s p.1).1.cache.length ≤ s.cache.length :=
        alistErase_length_le _ _
      simpa [Cache.deleteExpiredLoop, h] using Nat.le_trans h1 h2
    · simpa [Cache.deleteExpiredLoop, h] using ih s c

theorem Cache.delete_expired_length_le (s : Cache) :
    s.delete_expired.1.cache.length ≤ s.cache.length := by
  unfold Cache.delete_expired
  by_cases h : s.expireTimes = []
  · simp [h]
  · simpa [h] using Cache.deleteExpiredLoop_length_le s.now s.expireTimes s 0

theorem Cache.not_full_length (s : Cache) (hm : 0 < s.maxsize) (hf : s.full = false) :
    (s.cache.length : Int) < s.maxsize := by
  unfold Cache.full at hf
  rw [if_neg (by omega)] at hf
  simpa using of_decide_eq_false hf

theorem Cache.evictLoop_length (fuel : Nat) :
    ∀ (s : Cache) (c : Nat), 0 < s.maxsize → s.cache.length ≤ fuel →
      ((Cache.evictLoop fuel s c).1.cache.length : Int) < s.maxsize := by
  induction fuel with
  | zero =>
    intro s c hm hfuel
    have : s.cache.length = 0 := Nat.le_zero.mp hfuel
    simpa [Cache.evictLoop, this] using hm
  | succ fuel ih =>
    intro s c hm hfuel
    cases hf : s.full with
    | false =>
      simpa [Cache.evictLoop, hf] using Cache.not_full_length s hm hf
    | true =>
      cases hc : s.cache with
      | nil =>
        exfalso
        unfold Cache.full at hf
        rw [if_neg (by omega)] at hf
        have := of_decide_eq_true hf
        rw [hc] at this
        simp at this
        omega
      | cons p rest =>
        have hlook : alistLookup s.cache p.1 = some p.2 := by
          rw [hc]
          simp [alistLookup]
        have hlt : (Cache.delete s p.1).1.cache.length < s.cache.length :=
          alistErase_length_lt s.cache p.1 p.2 hlook
        have hfuel' : (Cache.delete s p.1).1.cache.length ≤ fuel := by
          omega
        have := ih (Cache.delete s p.1).1 (c + 1) hm hfuel'
        simpa [Cache.evictLoop, hf, Cache.popitem_, hc] using this

theorem Cache.evict_length (s : Cache) (hm : 0 < s.maxsize) :
    ((Cache.evict s).1.cache.length : Int) < s.maxsize := by
  unfold Cache.evict
  cases hf : s.delete_expired.1.full with
  | false =>
    have hm1 : 0 < s.delete_expired.1.maxsize := by
      rw [Cache.delete_expired_maxsize]; exact hm
    have := Cache.not_full_length s.delete_expired.1 hm1 hf
    rw [Cache.delete_expired_maxsize] at this
    simpa [hf] using this
  | true =>
    have hm1 : 0 < s.delete_expired.1.maxsize := by
      rw [Cache.delete_expired_maxsize]; exact hm
    have := Cache.evictLoop_length s.delete_expired.1.cache.length
      s.delete_expired.1 s.delete_expired.2 hm1 (Nat.le_refl _)
    rw [Cache.delete_expired_maxsize] at this
    simpa [hf] using this

theorem Cache.full_false_of_nonpos (s : Cache) (hm : s.maxsize ≤ 0) :
    s.full = false := by
  unfold Cache.full
  rw [if_pos hm]

theorem Cache.evict_of_nonpos (s : Cache) (hm : s.maxsize ≤ 0) :
    Cache.evict s = s.delete_expired := by
  unfold Cache.evict
  have : s.delete_expired.1.full = false :=
    Cache.full_false_of_nonpos _ (by rw [Cache.delete_expired_maxsize]; exact hm)
  simp [this]

theorem Cache.deleteExpiredLoop_lookup (eo : Int) (k' : String)
    (ps : List (String × Int)) :
    ∀ (s : Cache) (c : Nat), (∀ e, (k', e) ∈ ps → ¬ e ≤ eo) →
      alistLookup (Cache.deleteExpiredLoop eo (s, c) ps).1.cache k' =
        alistLookup s.cache k' := by
  induction ps with
  | nil => intro s c _; rfl
  | cons p rest ih =>
    intro s c hp
    by_cases h : p.2 ≤ eo
    · have hk : k' ≠ p.1 := by
        intro hcon
        exact hp p.2 (by rw [hcon]; exact List.mem_cons_self _ _) h
      have h1 := ih (Cache.delete s p.1).1 (c + (Cache.delete s p.1).2)
        (fun e he => hp e (List.mem_cons_of_mem _ he))
      have h2 : alistLookup (Cache.delete s p.1).1.cache k' =
          alistLookup s.cache k' := alistLookup_eraseOther _ _ _ hk
      simpa [Cache.deleteExpiredLoop, h] using h1.trans h2
    · simpa [Cache.deleteExpiredLoop, h] using
        ih s c (fun e he => hp e (List.mem_cons_of_mem _ he))

theorem Cache.delete_expired_lookup (s : Cache) (k' : String)
    (hp : ∀ e, (k', e) ∈ s.expireTimes → ¬ e ≤ s.now) :
    alistLookup s.delete_expired.1.cache k' = alistLookup s.cache k' := by
  unfold Cache.delete_expired
  by_cases h : s.expireTimes = []
  · simp [h]
  · simpa [h] using Cache.deleteExpiredLoop_lookup s.now k' s.expireTimes s 0 hp

/-- Claim C1: when `maxsize > 0`, `set` keeps the entry count within
`maxsize` (from any state already within the bound — every state a
fixed positive `maxsize` configuration can reach); when `maxsize = 0`
the cache is unbounded and `set` never removes a non-expired entry
(only the expiry sweep of `evict` runs, and it touches only entries
whose recorded expiration has passed). -/
theorem c1_maxsize_invariant (s : Cache) (k : String) (v : PyVal) (ttl : Option Int) :
    (0 < s.maxsize → (s.cache.length : Int) ≤ s.maxsize →
        (((s.set k v ttl).cache.length : Int)) ≤ s.maxsize) ∧
    (s.maxsize = 0 → ∀ k' v', k' ≠ k → alistLookup s.cache k' = some v' →
        (∀ e, (k', e) ∈ s.expireTimes → s.now < e) →
        alistLookup (s.set k v ttl).cache k' = some v') := by
  constructor
  · intro hm hlen
    unfold Cache.set
    cases hl : alistLookup s.cache k with
    | none =>
      have h1 : ((Cache.evict s).1.cache.length : Int) < s.maxsize :=
        Cache.evict_length s hm
      have h2 : (alistErase (Cache.evict s).1.cache k).length ≤
          (Cache.evict s).1.cache.length := alistErase_length_le _ _
      have h3 : alistLookup (alistErase (Cache.evict s).1.cache k) k =
          Option.none := alistLookup_eraseSame _ _
      by_cases ht : ttl.getD s.ttl > 0 <;>
        · simp only [hl, Option.isNone_none, ht, if_true, if_false, ite_true,
            ite_false, Cache.delete]
          rw [alistSet_of_absent _ _ _ h3]
          simp only [List.length_append, List.length_cons, List.length_nil]
          push_cast
          omega
    | some v0 =>
      have h2 : (alistErase s.cache k).length < s.cache.length :=
        alistErase_length_lt s.cache k v0 hl
      have h3 : alistLookup (alistErase s.cache k) k = Option.none :=
        alistLookup_eraseSame _ _
      by_cases ht : ttl.getD s.ttl > 0 <;>
        · simp only [hl, Option.isNone_some, Bool.false_eq_true, ht, if_true,
            if_false, ite_true, ite_false, Cache.delete]
          rw [alistSet_of_absent _ _ _ h3]
          simp only [List.length_append, List.length_cons, List.length_nil]
          push_cast
          omega
  · intro hm k' v' hk hl' hexp
    unfold Cache.set
    have hexp' : ∀ e, (k', e) ∈ s.expireTimes → ¬ e ≤ s.now := by
      intro e he
      have := hexp e he
      omega
    have hsweep : alistLookup s.delete_expired.1.cache k' = some v' :=
      (Cache.delete_expired_lookup s k' hexp').trans hl'
    have hevict : alistLookup (Cache.evict s).1.cache k' = some v' := by
      rw [Cache.evict_of_nonpos s (by omega)]
      exact hsweep
    cases hl : alistLookup s.cache k with
    | none =>
      have hdel : alistLookup (Cache.delete (Cache.evict s).1 k).1.cache k' =
          some v' := by
        simpa [Cache.delete, alistLookup_eraseOther _ _ _ hk] using hevict
      have habs : alistLookup (Cache.delete (Cache.evict s).1 k).1.cache k =
          Option.none := alistLookup_eraseSame _ _
      by_cases ht : ttl.getD s.ttl > 0 <;>
        · simp only [hl, Option.isNone_none, if_true, ht, if_false]
          rw [alistSet_of_absent _ _ _ habs]
          exact alistLookup_append_left _ _ _ _ hdel
    | some v0 =>
      have hdel : alistLookup (Cache.delete s k).1.cache k' = some v' := by
        simpa [Cache.delete, alistLookup_eraseOther _ _ _ hk] using hl'
      have habs : alistLookup (Cache.delete s k).1.cache k = Option.none :=
        alistLookup_eraseSame _ _
      by_cases ht : ttl.getD s.ttl > 0 <;>
        · simp only [hl, Option.isNone_some, Bool.false_eq_true, if_false, ht,
            if_true]
          rw [alistSet_of_absent _ _ _ habs]
          exact alistLookup_append_left _ _ _ _ hdel

/-- A full cache (2 entries, `maxsize = 2`) and a fresh unbounded cache
used to witness C1. -/
def c1Cache : Cache :=
  { cache := [("a", .pyInt 1), ("b", .pyInt 2)], expireTimes := [],
    maxsize := 2, ttl := 0, now := 0, default := GetDefault.none }

/-- Witness for C1: setting a new key on the full two-entry cache with
`maxsize = 2` keeps the size at 2. -/
theorem c1_maxsize_invariant_witness :
    (((c1Cache.set "c" (.pyInt 3) Option.none).cache.length : Int)) ≤ 2 :=
  (c1_maxsize_invariant c1Cache "c" (.pyInt 3) Option.none).1 (by decide) (by decide)

/-! ## Claim C7 — `has` leaves ordering and statistics alone -/

theorem Cache.get_hit (s : Cache) (k : String) (v : PyVal) (d : GetDefault)
    (hl : alistLookup s.cache k = some v) (hexp : s.expired k Option.none = false) :
    s.get k d = (.val v, s) := by
  unfold Cache.get
  simp [hl, hexp]

theorem Cache.get_expired (s : Cache) (k : String) (v : PyVal)
    (hl : alistLookup s.cache k = some v) (hexp : s.expired k Option.none = true) :
    s.get k GetDefault.unset = (.unset, (s.delete k).1) := by
  unfold Cache.get
  simp [hl, hexp]

theorem Cache.get_absent (s : Cache) (k : String)
    (hl : alistLookup s.cache k = Option.none) :
    s.get k GetDefault.unset = (.unset, s) := by
  unfold Cache.get
  simp [hl]

/-- A live cache with two entries and no TTLs, used to witness C7. -/
def c7Cache : Cache :=
  { cache := [("a", .pyInt 1), ("b", .pyInt 2)], expireTimes := [],
    maxsize := 256, ttl := 0, now := 0, default := GetDefault.none }

/-- Claim C7: `has(key)` is true iff the key is present and not
expired; a live hit leaves the entire cache state unchanged (so no
eviction reordering and — `cache.py` never touching the statistics
tracker — no hit/miss counting); in every case the queue is either
untouched or merely loses the expired key itself; and on the LRU
variant `has` (inherited, going through the base `_get`) still leaves
the queue alone while `get` moves a live key to the freshest end. -/
theorem c7_has_no_side_effects (s : Cache) (k : String) :
    ((s.has k).1 = true ↔
      ∃ v, alistLookup s.cache k = some v ∧ s.expired k Option.none = false) ∧
    (∀ v, alistLookup s.cache k = some v → s.expired k Option.none = false →
        (s.has k).2 = s) ∧
    ((s.has k).2.cache = s.cache ∨ (s.has k).2.cache = alistErase s.cache k) ∧
    LRUCache.has s k = s.has k ∧
    (∀ v, alistLookup s.cache k = some v → s.expired k Option.none = false →
        (LRUCache.get s k GetDefault.none).2.cache =
          alistErase s.cache k ++ [(k, v)]) := by
  refine ⟨?_, ?_, ?_, rfl, ?_⟩
  · cases hl : alistLookup s.cache k with
    | none =>
      unfold Cache.has
      rw [Cache.get_absent s k hl]
      simp [hl]
    | some v =>
      cases hexp : s.expired k Option.none with
      | false =>
        unfold Cache.has
        rw [Cache.get_hit s k v GetDefault.unset hl hexp]
        simp [hl]
      | true =>
        unfold Cache.has
        rw [Cache.get_expired s k v hl hexp]
        simp [hl, hexp]
  · intro v hl hexp
    unfold Cache.has
    rw [Cache.get_hit s k v GetDefault.unset hl hexp]
  · cases hl : alistLookup s.cache k with
    | none =>
      unfold Cache.has
      rw [Cache.get_absent s k hl]
      exact Or.inl rfl
    | some v =>
      cases hexp : s.expired k Option.none with
      | false =>
        unfold Cache.has
        rw [Cache.get_hit s k v GetDefault.unset hl hexp]
        exact Or.inl rfl
      | true =>
        unfold Cache.has
        rw [Cache.get_expired s k v hl hexp]
        exact Or.inr rfl
  · intro v hl hexp
    unfold LRUCache.get
    rw [Cache.get_hit s k v GetDefault.none hl hexp]
    simp [hl, moveToEnd]

/-- Witness for C7: on the concrete two-entry cache, a `get` of the
live key "a" through the LRU variant moves it to the freshest end. -/
theorem c7_has_no_side_effects_witness :
    (LRUCache.get c7Cache "a" GetDefault.none).2.cache =
      alistErase c7Cache.cache "a" ++ [("a", PyVal.pyInt 1)] :=
  (c7_has_no_side_effects c7Cache "a").2.2.2.2 (.pyInt 1) rfl rfl

/-! ## Claim C3 — `popitem` and the expiry sweep -/

/-- Whether the sweep of `_delete_expired` removes key `k`: some
recorded expiration for `k` in the snapshot `ps` has passed at `eo`. -/
def doomedIn (ps : List (String × Int)) (eo : Int) (k : String) : Bool :=
  ps.any (fun q => decide (q.1 = k) && decide (q.2 ≤ eo))

theorem alistErase_eq_filter {α : Type} (l : List (String × α)) (k : String) :
    alistErase l k = l.filter (fun p => ! decide (p.1 = k)) := by
  induction l with
  | nil => rfl
  | cons p rest ih =>
    by_cases hp : p.1 = k <;> simp [alistErase, hp, List.filter_cons, ih]

theorem Cache.deleteExpiredLoop_cache (eo : Int) (ps : List (String × Int)) :
    ∀ (s : Cache) (c : Nat),
      (Cache.deleteExpiredLoop eo (s, c) ps).1.cache =
        s.cache.filter (fun p => ! doomedIn ps eo p.1) := by
  induction ps with
  | nil =>
    intro s c
    simp [Cache.deleteExpiredLoop, doomedIn]
  | cons q rest ih =>
    intro s c
    by_cases h : q.2 ≤ eo
    · have hstep : Cache.deleteExpiredLoop eo (s, c) (q :: rest) =
          Cache.deleteExpiredLoop eo
            ((Cache.delete s q.1).1, c + (Cache.delete s q.1).2) rest := by
        simp [Cache.deleteExpiredLoop, h]
      rw [hstep, ih]
      show (alistErase s.cache q.1).filter _ = _
      rw [alistErase_eq_filter, List.filter_filter]
      refine List.filter_congr ?_
      intro p _
      by_cases hpq : p.1 = q.1 <;>
        simp [doomedIn, List.any_cons, hpq, h, eq_comm]
    · have hstep : Cache.deleteExpiredLoop eo (s, c) (q :: rest) =
          Cache.deleteExpiredLoop eo (s, c) rest := by
        simp [Cache.deleteExpiredLoop, h]
      rw [hstep, ih]
      refine List.filter_congr ?_
      intro p _
      simp [doomedIn, List.any_cons, h]

theorem Cache.delete_expired_cache (s : Cache) :
    s.delete_expired.1.cache =
      s.cache.filter (fun p => ! doomedIn s.expireTimes s.now p.1) := by
  unfold Cache.delete_expired
  by_cases h : s.expireTimes = []
  · simp [h, doomedIn]
  · simpa [h] using Cache.deleteExpiredLoop_cache s.now s.expireTimes s 0

/-- The cache of the C3 counterexample: front entry "a" expired
(expiry 5 at current time 10), live entry "b" behind it. -/
def c3Cache : Cache :=
  { cache := [("a", .pyInt 1), ("b", .pyInt 2)], expireTimes := [("a", 5)],
    maxsize := 256, ttl := 0, now := 10, default := GetDefault.none }

/-- Claim C3 counterexample: the order-next candidate is the front key
"a", and the claim says popitem returns it, ignoring expiry entirely
and performing no expiry-based removal.  The code instead runs
`_delete_expired` first, which removes the expired "a", and then
returns ("b", 2). -/
theorem c3_counterexample :
    c3Cache.cache.head? = some ("a", .pyInt 1) ∧
    Except.map (fun r => r.2) c3Cache.popitem = .ok ("b", .pyInt 2) ∧
    Except.map (fun r => alistLookup r.1.cache "a") c3Cache.popitem =
      .ok Option.none :=
  ⟨rfl, rfl, rfl⟩

/-- Claim C3 amended: `popitem` first deletes every expired entry, then
removes and returns the policy's next candidate among the survivors —
the first entry, in eviction order, not removed by the sweep (selection
among survivors is order-only, ignoring expiry).  It fails with
`KeyError` ("cache is empty") exactly when no entry survives. -/
theorem c3_popitem_amended (s : Cache) :
    (s.cache.filter (fun p => ! doomedIn s.expireTimes s.now p.1) = [] →
        s.popitem = .error "popitem(): cache is empty") ∧
    (∀ k v rest,
        s.cache.filter (fun p => ! doomedIn s.expireTimes s.now p.1) =
            (k, v) :: rest →
        Except.map (fun r => r.2) s.popitem = .ok (k, v) ∧
        Except.map (fun r => alistLookup r.1.cache k) s.popitem =
          .ok Option.none) := by
  have hc := Cache.delete_expired_cache s
  constructor
  · intro hempty
    unfold Cache.popitem Cache.popitem_
    rw [hc, hempty]
  · intro k v rest hcons
    unfold Cache.popitem Cache.popitem_
    rw [hc, hcons]
    exact ⟨rfl, by simp [Except.map, Cache.delete, alistLookup_eraseSame]⟩

/-- Witness for the amended C3: on the concrete cache, the survivor
list is `[("b", 2)]`, so popitem returns ("b", 2) and removes it. -/
theorem c3_popitem_amended_witness :
    Except.map (fun r => r.2) c3Cache.popitem = .ok ("b", PyVal.pyInt 2) ∧
    Except.map (fun r => alistLookup r.1.cache "b") c3Cache.popitem =
      .ok Option.none :=
  (c3_popitem_amended c3Cache).2 "b" (.pyInt 2) [] (by decide)

/-! ## Claim C10 — explicit `default=None` versus omitted default -/

/-- Claim C10: passing `default=None` explicitly to `get` is identical
to omitting the argument (whose declared default is `None`); on a miss
the instance-level default is resolved, and a callable instance default
is invoked with the key and its result stored in the cache — an
explicit per-call `None` can never suppress a configured instance
default. -/
theorem c10_get_default_none (s : Cache) (k : String) :
    s.get k GetDefault.none = s.get k Cache.getDefaultOmitted ∧
    (∀ f : String → PyVal, s.default = GetDefault.fn f →
        alistLookup s.cache k = Option.none →
        (s.get k GetDefault.none).1 = .val (f k) ∧
        alistLookup (s.get k GetDefault.none).2.cache k = some (f k)) := by
  refine ⟨rfl, ?_⟩
  intro f hdef habs
  unfold Cache.get
  simp only [habs, hdef]
  exact ⟨trivial, Cache.lookup_set_self s k (f k) Option.none⟩

/-- Witness for C10: a cache whose instance default is the callable
`fun k => 7`; `get("a", default=None)` on the empty cache returns 7 and
stores it. -/
theorem c10_get_default_none_witness :
    ((Cache.init 256 0 100 (GetDefault.fn fun _ => .pyInt 7)).get "a"
          GetDefault.none).1 = .val (.pyInt 7) ∧
    alistLookup ((Cache.init 256 0 100 (GetDefault.fn fun _ => .pyInt 7)).get "a"
          GetDefault.none).2.cache "a" = some (.pyInt 7) :=
  (c10_get_default_none (Cache.init 256 0 100 (GetDefault.fn fun _ => .pyInt 7))
        "a").2 (fun _ => .pyInt 7) rfl rfl

/-! ## Claim C4 — `configure` validation

`Cache.configure(maxsize, ttl, timer, default)` validates and assigns
each option in sequence.  The model keeps the four configuration
attributes in a record (the injected timer callable represented by an
identifier) and mirrors the source's option blocks in order. -/

/-- The `maxsize` argument of `configure`: omitted (`None`), an
integer, or a value of a non-integer type. -/
inductive MaxsizeArg where
  | none
  | int (n : Int)
  | nonInt
  deriving DecidableEq, Repr

/-- The `ttl` argument: omitted, a number (int/float/Decimal), or a
non-numeric value. -/
inductive TtlArg where
  | none
  | num (x : Int)
  | nonNum
  deriving DecidableEq, Repr

/-- The `timer` argument: omitted, a callable, or a non-callable
value. -/
inductive TimerArg where
  | none
  | callable (id : Nat)
  | nonCallable
  deriving DecidableEq, Repr

/-- The `default` argument, whose sentinel default is `UNSET`. -/
inductive DefaultArg where
  | unset
  | arg (d : GetDefault)

/-- Python exceptions raised by `configure`. -/
inductive PyError where
  | typeError (msg : String)
  | valueError (msg : String)
  deriving DecidableEq, Repr

/-- The configuration attributes assigned by `Cache.configure`. -/
structure Config where
  maxsize : Int
  ttl : Int
  timerId : Nat
  default : GetDefault

/-- The `default` block of `configure`: `if default is not UNSET:
self.default = default`. -/
def Config.applyDefault (c : Config) (d : DefaultArg) : Except PyError Unit × Config :=
  match d with
  | .unset => (.ok (), c)
  | .arg v => (.ok (), { c with default := v })

/-- The `timer` block of `configure`: a non-callable raises TypeError,
otherwise the timer is assigned and the `default` block runs. -/
def Config.applyTimer (c : Config) (tm : TimerArg) (d : DefaultArg) :
    Except PyError Unit × Config :=
  match tm with
  | .none => c.applyDefault d
  | .callable i => Config.applyDefault { c with timerId := i } d
  | .nonCallable => (.error (.typeError "timer must be a callable"), c)

/-- The `ttl` block of `configure`: a non-number raises TypeError, a
negative number ValueError; otherwise `self.ttl` is assigned and the
later blocks run. -/
def Config.applyTtl (c : Config) (t : TtlArg) (tm : TimerArg) (d : DefaultArg) :
    Except PyError Unit × Config :=
  match t with
  | .none => c.applyTimer tm d
  | .num x =>
    if x < 0 then (.error (.valueError "ttl must be greater than or equal to 0"), c)
    else Config.applyTimer { c with ttl := x } tm d
  | .nonNum => (.error (.typeError "ttl must be a number"), c)

/-- `Cache.configure`: the `maxsize` block (TypeError on a non-integer,
ValueError on a negative, else assign) followed by the ttl, timer and
default blocks in sequence. -/
def Config.configure (c : Config) (m : MaxsizeArg) (t : TtlArg) (tm : TimerArg)
    (d : DefaultArg) : Except PyError Unit × Config :=
  match m with
  | .none => c.applyTtl t tm d
  | .int n =>
    if n < 0 then
      (.error (.valueError "maxsize must be greater than or equal to 0"), c)
    else Config.applyTtl { c with maxsize := n } t tm d
  | .nonInt => (.error (.typeError "maxsize must be an integer"), c)

/-- Whether the `maxsize` argument passes validation. -/
def MaxsizeArg.valid : MaxsizeArg → Bool
  | .none => true
  | .int n => decide (0 ≤ n)
  | .nonInt => false

/-- The exception an invalid `maxsize` raises. -/
def MaxsizeArg.err : MaxsizeArg → PyError
  | .nonInt => .typeError "maxsize must be an integer"
  | _ => .valueError "maxsize must be greater than or equal to 0"

/-- The stored `maxsize` after a successful block. -/
def MaxsizeArg.app (m : MaxsizeArg) (old : Int) : Int :=
  match m with
  | .int n => n
  | _ => old

/-- Whether the `ttl` argument passes validation. -/
def TtlArg.valid : TtlArg → Bool
  | .none => true
  | .num x => decide (0 ≤ x)
  | .nonNum => false

/-- The exception an invalid `ttl` raises. -/
def TtlArg.err : TtlArg → PyError
  | .nonNum => .typeError "ttl must be a number"
  | _ => .valueError "ttl must be greater than or equal to 0"

/-- The stored `ttl` after a successful block. -/
def TtlArg.app (t : TtlArg) (old : Int) : Int :=
  match t with
  | .num x => x
  | _ => old

/-- The stored timer after a successful block. -/
def TimerArg.app (tm : TimerArg) (old : Nat) : Nat :=
  match tm with
  | .callable i => i
  | _ => old

/-- The stored default after the final block. -/
def DefaultArg.app (d : DefaultArg) (old : GetDefault) : GetDefault :=
  match d with
  | .arg v => v
  | .unset => old

/-- The prior configuration of the C4 counterexample:
`Cache()` defaults (maxsize 256, ttl 0). -/
def c4Config : Config :=
  { maxsize := 256, ttl := 0, timerId := 0, default := GetDefault.none }

/-- Claim C4 counterexample: `configure(maxsize=10, ttl=-1)` raises the
ttl ValueError, but the prior configuration is not left untouched — the
valid `maxsize=10` processed earlier in the same call has already been
applied (256 became 10). -/
theorem c4_counterexample :
    (c4Config.configure (.int 10) (.num (-1)) .none .unset).1 =
      .error (.valueError "ttl must be greater than or equal to 0") ∧
    (c4Config.configure (.int 10) (.num (-1)) .none .unset).2.maxsize = 10 ∧
    c4Config.maxsize = 256 :=
  ⟨rfl, rfl, rfl⟩

/-- Claim C4 amended: every invalid option value raises its type/value
error synchronously and is itself never applied, and options after it
in processing order (maxsize, then ttl, then timer, then default) are
untouched; but options processed before the failing one are already
applied, so a failing `configure` is not atomic. -/
theorem c4_configure_not_atomic (c : Config) (m : MaxsizeArg) (t : TtlArg)
    (tm : TimerArg) (d : DefaultArg) :
    (m.valid = false → c.configure m t tm d = (.error m.err, c)) ∧
    (m.valid = true → t.valid = false →
        c.configure m t tm d =
          (.error t.err, { c with maxsize := m.app c.maxsize })) ∧
    (m.valid = true → t.valid = true → tm = .nonCallable →
        c.configure m t tm d =
          (.error (.typeError "timer must be a callable"),
           { c with maxsize := m.app c.maxsize, ttl := t.app c.ttl })) ∧
    (m.valid = true → t.valid = true → tm ≠ .nonCallable →
        c.configure m t tm d =
          (.ok (),
           { maxsize := m.app c.maxsize, ttl := t.app c.ttl,
             timerId := tm.app c.timerId, default := d.app c.default })) := by
  refine ⟨?_, ?_, ?_, ?_⟩
  · intro hmv
    cases m with
    | none => simp [MaxsizeArg.valid] at hmv
    | int n =>
      have hn : n < 0 := by
        have := of_decide_eq_false hmv
        omega
      simp [Config.configure, MaxsizeArg.err, hn]
    | nonInt => rfl
  · intro hmv htv
    have hgoal : ∀ c' : Config,
        c'.applyTtl t tm d = (.error t.err, c') := by
      intro c'
      cases t with
      | none => simp [TtlArg.valid] at htv
      | num x =>
        have hx : x < 0 := by
          have := of_decide_eq_false htv
          omega
        simp [Config.applyTtl, TtlArg.err, hx]
      | nonNum => rfl
    cases m with
    | none =>
      show c.applyTtl t tm d = _
      rw [hgoal c]
      rfl
    | int n =>
      have hn : ¬ n < 0 := by
        have := of_decide_eq_true hmv
        omega
      simp only [Config.configure]
      rw [if_neg hn, hgoal]
      rfl
    | nonInt => simp [MaxsizeArg.valid] at hmv
  · intro hmv htv htm
    subst htm
    have hgoal : ∀ c' : Config,
        c'.applyTtl t .nonCallable d =
          (.error (.typeError "timer must be a callable"),
           { c' with ttl := t.app c'.ttl }) := by
      intro c'
      cases t with
      | none => rfl
      | num x =>
        have hx : ¬ x < 0 := by
          have := of_decide_eq_true htv
          omega
        simp only [Config.applyTtl]
        rw [if_neg hx]
        rfl
      | nonNum => simp [TtlArg.valid] at htv
    cases m with
    | none =>
      show c.applyTtl t .nonCallable d = _
      rw [hgoal c]
      rfl
    | int n =>
      have hn : ¬ n < 0 := by
        have := of_decide_eq_true hmv
        omega
      simp only [Config.configure]
      rw [if_neg hn, hgoal]
      rfl
    | nonInt => simp [MaxsizeArg.valid] at hmv
  · intro hmv htv htm
    have htimer : ∀ c' : Config,
        c'.applyTimer tm d =
          (.ok (), { c' with timerId := tm.app c'.timerId,
                             default := d.app c'.default }) := by
      intro c'
      cases tm with
      | none =>
        cases d with
        | unset => rfl
        | arg v => rfl
      | callable i =>
        cases d with
        | unset => rfl
        | arg v => rfl
      | nonCallable => exact absurd rfl htm
    have hgoal : ∀ c' : Config,
        c'.applyTtl t tm d =
          (.ok (), { c' with ttl := t.app c'.ttl,
                             timerId := tm.app c'.timerId,
                             default := d.app c'.default }) := by
      intro c'
      cases t with
      | none =>
        rw [show c'.applyTtl .none tm d = c'.applyTimer tm d from rfl, htimer c']
        rfl
      | num x =>
        have hx : ¬ x < 0 := by
          have := of_decide_eq_true htv
          omega
        simp only [Config.applyTtl]
        rw [if_neg hx, htimer]
        rfl
      | nonNum => simp [TtlArg.valid] at htv
    cases m with
    | none =>
      show c.applyTtl t tm d = _
      rw [hgoal c]
      rfl
    | int n =>
      have hn : ¬ n < 0 := by
        have := of_decide_eq_true hmv
        omega
      simp only [Config.configure]
      rw [if_neg hn, hgoal]
      rfl
    | nonInt => simp [MaxsizeArg.valid] at hmv

/-- Witness for the amended C4: `configure(maxsize=10, ttl="x")` on the
default configuration raises the ttl TypeError with maxsize already
changed to 10 and ttl/timer/default untouched. -/
theorem c4_configure_not_atomic_witness :
    c4Config.configure (.int 10) .nonNum .none .unset =
      (.error (.typeError "ttl must be a number"),
       { c4Config with maxsize := 10 }) :=
  (c4_configure_not_atomic c4Config (.int 10) .nonNum .none .unset).2.1 rfl rfl

/-! ## Claim C9 — memoization keys

`Cache.memoize` derives the cache key of a call with
`_make_memoize_key(func, args, kwargs, marker, typed, argspec, prefix,
persist)` and then drives the plain `get`/`set` contract. -/

/-- Entries of the `key_args` tuple assembled in `_make_memoize_key`:
plain values (the function name contributes its string value) or type
objects. -/
inductive KeyArg where
  | val (v : PyVal)
  | ty (t : PyTy)
  deriving DecidableEq, Repr

/-- `_hash_value` (Python `hash()`, with a `repr` fallback that the
modelled hashable values never reach), modelled executably.  The model
keeps the CPython guarantees the key derivation relies on: numbers that
compare equal hash equally across int/float (`hash(1) == hash(1.0)`,
so an integral float hashes to its integer); small-int hashes are the
integer itself; string hashes are injective per process (modelled by an
injective base-1114112 fold over the code points); type objects carry
distinct id-based hashes (modelled by distinct constants). -/
def pyHashKeyArg : KeyArg → Int
  | .val (.pyInt n) => n
  | .val (.pyFloat n) => n
  | .val (.pyStr s) => s.data.foldl (fun h c => h * 1114112 + (c.toNat + 1)) 7
  | .ty .int => 3
  | .ty .float => 5
  | .ty .str => 11

/-- `str(x)` on key-args, used for the raw key when `persist=True`. -/
def strOfKeyArg : KeyArg → String
  | .val (.pyInt n) => toString n
  | .val (.pyFloat n) => toString n ++ ".0"
  | .val (.pyStr s) => s
  | .ty .int => "<class 'int'>"
  | .ty .float => "<class 'float'>"
  | .ty .str => "<class 'str'>"

/-- `hashlib.md5(raw_key.encode()).hexdigest()` (Python standard
library, not part of this repository).  Per the source comment its only
role is to normalize key length; the memoization contract relies on
distinct raw keys producing distinct digests, so the digest is modelled
as an injective function of the raw key — the identity being the
simplest such model. -/
def md5Hex (s : String) : String := s

/-- Insertion into a list sorted by key, for `sorted(kwargs.items())`
(keys are unique, so comparing keys decides the tuple order). -/
def insertByKey (p : String × PyVal) : List (String × PyVal) → List (String × PyVal)
  | [] => [p]
  | q :: rest => if p.1 ≤ q.1 then p :: q :: rest else q :: insertByKey p rest

/-- `sorted(kwargs.items())` by insertion sort. -/
def sortByKey (l : List (String × PyVal)) : List (String × PyVal) :=
  l.foldr insertByKey []

/-- The kwargs-normalization loop of `_make_memoize_key`:
`for i, arg in enumerate(argspec.args): if arg in kwargs:
args = args[:i] + (kwargs.pop(arg),) + args[i:]`. -/
def normalizeLoop : List (Nat × String) → List PyVal → List (String × PyVal) →
    List PyVal × List (String × PyVal)
  | [], args, kwargs => (args, kwargs)
  | (i, arg) :: rest, args, kwargs =>
    match alistLookup kwargs arg with
    | some v =>
      normalizeLoop rest (args.take i ++ v :: args.drop i) (alistErase kwargs arg)
    | Option.none => normalizeLoop rest args kwargs

/-- The normalization step, guarded by `if kwargs:`. -/
def normalizeArgs (argspecArgs : List String) (args : List PyVal)
    (kwargs : List (String × PyVal)) : List PyVal × List (String × PyVal) :=
  if kwargs.isEmpty then (args, kwargs)
  else normalizeLoop argspecArgs.enum args kwargs

/-- `_make_memoize_key`: normalize keyword arguments into positional
form, assemble the `key_args` tuple (the function name; each positional
value, or its type for instances carrying `__dict__`; when `typed`, the
types of the positional values and of the leftover keyword values
sorted by name), concatenate `str(_hash_value(piece))` for every piece
(`str(piece)` when persisting), and append the md5 digest of the raw
key to the prefix.  The `marker` parameter of the source is unused: the
block that separated args from kwargs with it is commented out. -/
def _make_memoize_key (funcName : String) (args : List PyVal)
    (kwargs : List (String × PyVal)) (typed : Bool) (argspecArgs : List String)
    (pfx : String) (persist : Bool) : String :=
  let norm := normalizeArgs argspecArgs args kwargs
  let args := norm.1
  let kwargs := norm.2
  let keyArgs : List KeyArg := [.val (.pyStr funcName)]
  let keyArgs := keyArgs ++
    (if ! args.isEmpty then
        args.map (fun a => if a.hasDict then KeyArg.ty a.typeOf else KeyArg.val a)
      else [])
  let keyArgs := keyArgs ++
    (if typed && ! args.isEmpty then args.map (fun a => KeyArg.ty a.typeOf) else [])
  let keyArgs := keyArgs ++
    (if typed && ! kwargs.isEmpty then
        (sortByKey kwargs).map (fun q => KeyArg.ty q.2.typeOf)
      else [])
  let rawKey :=
    if persist then String.join (keyArgs.map strOfKeyArg)
    else String.join (keyArgs.map (fun a => toString (pyHashKeyArg a)))
  pfx ++ md5Hex rawKey

/-- The synchronous wrapper `decorated` produced by `Cache.memoize`
(persistence off, so `path_cache is None`): derive the key, `get` it
with the decorator's `marker` object as default, and when the marker
comes back call the wrapped function and `set` the result under the key
with the decorator's ttl. -/
def memoizedCall (s : Cache) (impl : List PyVal → List (String × PyVal) → PyVal)
    (funcName pfx : String) (argspecArgs : List String) (typed : Bool)
    (ttl : Option Int) (args : List PyVal) (kwargs : List (String × PyVal)) :
    PyRet × Cache :=
  let key := _make_memoize_key funcName args kwargs typed argspecArgs pfx false
  let (r, s') := s.get key GetDefault.marker
  match r with
  | .marker =>
    let v := impl args kwargs
    (.val v, s'.set key v ttl)
  | other => (other, s')

theorem normalizeLoop_nil_kwargs (el : List (Nat × String)) (args : List PyVal) :
    normalizeLoop el args [] = (args, []) := by
  induction el with
  | nil => rfl
  | cons q rest ih => simpa [normalizeLoop, alistLookup] using ih

theorem alistLookup_zip_not_mem {α : Type} (ns : List String) (k : String)
    (h : k ∉ ns) : ∀ (vs : List α), alistLookup (ns.zip vs) k = Option.none := by
  induction ns with
  | nil => intro vs; rfl
  | cons n rest ih =>
    intro vs
    cases vs with
    | nil => rfl
    | cons v vrest =>
      have h1 : n ≠ k := fun hc => h (hc ▸ List.mem_cons_self _ _)
      have h2 : k ∉ rest := fun hc => h (List.mem_cons_of_mem _ hc)
      have hstep : alistLookup ((n, v) :: rest.zip vrest) k =
          alistLookup (rest.zip vrest) k := by
        simp [alistLookup, h1]
      rw [List.zip_cons_cons, hstep, ih h2 vrest]

theorem alistErase_zip_not_mem {α : Type} (ns : List String) (k : String)
    (h : k ∉ ns) : ∀ (vs : List α), alistErase (ns.zip vs) k = ns.zip vs := by
  induction ns with
  | nil => intro vs; rfl
  | cons n rest ih =>
    intro vs
    cases vs with
    | nil => rfl
    | cons v vrest =>
      have h1 : n ≠ k := fun hc => h (hc ▸ List.mem_cons_self _ _)
      have h2 : k ∉ rest := fun hc => h (List.mem_cons_of_mem _ hc)
      have hstep : alistErase ((n, v) :: rest.zip vrest) k =
          (n, v) :: alistErase (rest.zip vrest) k := by
        simp [alistErase, h1]
      rw [List.zip_cons_cons, hstep, ih h2 vrest]

theorem normalizeLoop_skip (front rest : List (Nat × String)) (args : List PyVal)
    (kwargs : List (String × PyVal))
    (h : ∀ q ∈ front, alistLookup kwargs q.2 = Option.none) :
    normalizeLoop (front ++ rest) args kwargs = normalizeLoop rest args kwargs := by
  induction front with
  | nil => rfl
  | cons q fr ih =>
    have h1 : alistLookup kwargs q.2 = Option.none := h q (List.mem_cons_self _ _)
    have h2 : ∀ r ∈ fr, alistLookup kwargs r.2 = Option.none := fun r hr =>
      h r (List.mem_cons_of_mem _ hr)
    calc normalizeLoop ((q :: fr) ++ rest) args kwargs
        = normalizeLoop (fr ++ rest) args kwargs := by
          simp only [List.cons_append, normalizeLoop, h1, List.append_eq]
      _ = normalizeLoop rest args kwargs := ih h2

theorem normalizeLoop_fill (rest : List String) :
    ∀ (p : Nat) (vals : List PyVal), rest.Nodup → p ≤ vals.length →
      vals.length ≤ p + rest.length →
      normalizeLoop (List.enumFrom p rest) (vals.take p) (rest.zip (vals.drop p)) =
        (vals, []) := by
  induction rest with
  | nil =>
    intro p vals _ hp hlen
    have hpl : vals.length ≤ p := by simpa using hlen
    show (vals.take p, ([] : List String).zip (vals.drop p)) = (vals, [])
    rw [List.take_of_length_le hpl]
    rfl
  | cons name rest' ih =>
    intro p vals hnd hp hlen
    by_cases hcase : p < vals.length
    · have hdrop : vals.drop p = vals[p] :: vals.drop (p + 1) :=
        List.drop_eq_getElem_cons hcase
      rw [hdrop, List.zip_cons_cons]
      have hlook : alistLookup ((name, vals[p]) :: rest'.zip (vals.drop (p + 1)))
          name = some vals[p] := by
        simp [alistLookup]
      have hnm : name ∉ rest' := (List.nodup_cons.mp hnd).1
      have herase :
          alistErase ((name, vals[p]) :: rest'.zip (vals.drop (p + 1))) name =
            rest'.zip (vals.drop (p + 1)) := by
        simp [alistErase, alistErase_zip_not_mem rest' name hnm]
      have hargs : (vals.take p).take p ++ vals[p] :: (vals.take p).drop p =
          vals.take (p + 1) := by
        rw [List.take_take, Nat.min_self,
          List.drop_eq_nil_of_le (by rw [List.length_take]; omega)]
        have := List.take_concat_get vals p hcase
        simp only [List.concat_eq_append] at this
        simp only [← this]
      show normalizeLoop ((p, name) :: List.enumFrom (p + 1) rest') _ _ = _
      simp only [normalizeLoop, hlook, herase, hargs]
      exact ih (p + 1) vals (List.nodup_cons.mp hnd).2 hcase
        (by simp only [List.length_cons] at hlen ⊢; omega)
    · have hpl : vals.length ≤ p := by omega
      rw [List.drop_eq_nil_of_le hpl, List.zip_nil_right,
        normalizeLoop_nil_kwargs, List.take_of_length_le hpl]

theorem normalizeArgs_split (names : List String) (vals : List PyVal) (n : Nat)
    (hnd : names.Nodup) (hn : n ≤ vals.length) (hlen : vals.length ≤ names.length) :
    normalizeArgs names (vals.take n) ((names.drop n).zip (vals.drop n)) =
      (vals, []) := by
  have hnn : n ≤ names.length := Nat.le_trans hn hlen
  by_cases hkw : ((names.drop n).zip (vals.drop n)).isEmpty
  · have hzip : (names.drop n).zip (vals.drop n) = [] := by
      simpa [List.isEmpty_iff] using hkw
    have htake : vals.take n = vals := by
      rcases List.zip_eq_nil_iff.mp hzip with hd | hd
      · have : names.length ≤ n := by
          have := congrArg List.length hd
          simp [List.length_drop] at this
          omega
        exact List.take_of_length_le (Nat.le_trans hlen this)
      · have : vals.length ≤ n := by
          have := congrArg List.length hd
          simp [List.length_drop] at this
          omega
        exact List.take_of_length_le this
    unfold normalizeArgs
    rw [if_pos hkw, htake, hzip]
  · have hsplit : names.take n ++ names.drop n = names := List.take_append_drop n names
    have hnodup : (names.take n ++ names.drop n).Nodup := by rw [hsplit]; exact hnd
    obtain ⟨-, hnd2, hdisj⟩ := List.nodup_append.mp hnodup
    have hfrontlen : (names.take n).length = n := by
      rw [List.length_take]
      omega
    have hskip : ∀ q ∈ List.enumFrom 0 (names.take n),
        alistLookup ((names.drop n).zip (vals.drop n)) q.2 = Option.none := by
      intro q hq
      have hmem : q.2 ∈ names.take n := List.snd_mem_of_mem_enumFrom hq
      exact alistLookup_zip_not_mem _ _ (hdisj hmem) _
    unfold normalizeArgs
    rw [if_neg hkw]
    calc normalizeLoop names.enum (vals.take n) ((names.drop n).zip (vals.drop n))
        = normalizeLoop (List.enumFrom 0 (names.take n ++ names.drop n))
            (vals.take n) ((names.drop n).zip (vals.drop n)) := by rw [hsplit]; rfl
      _ = normalizeLoop
            (List.enumFrom 0 (names.take n) ++ List.enumFrom n (names.drop n))
            (vals.take n) ((names.drop n).zip (vals.drop n)) := by
          rw [List.enumFrom_append, hfrontlen, Nat.zero_add]
      _ = normalizeLoop (List.enumFrom n (names.drop n)) (vals.take n)
            ((names.drop n).zip (vals.drop n)) := normalizeLoop_skip _ _ _ _ hskip
      _ = (vals, []) := by
          refine normalizeLoop_fill (names.drop n) n vals hnd2 hn ?_
          rw [List.length_drop]
          omega

theorem make_memoize_key_congr (fname : String) (typed persist : Bool)
    (names : List String) (pfx : String) (args1 args2 : List PyVal)
    (kwargs1 kwargs2 : List (String × PyVal))
    (h : normalizeArgs names args1 kwargs1 = normalizeArgs names args2 kwargs2) :
    _make_memoize_key fname args1 kwargs1 typed names pfx persist =
      _make_memoize_key fname args2 kwargs2 typed names pfx persist := by
  unfold _make_memoize_key
  rw [h]

/-- The empty cache the memoization scenarios run on. -/
def c9Start : Cache := Cache.init 256 0 100 GetDefault.none

/-- After memoized `foo(1, 2, 3)` then `foo(1, b=2, c=3)` on a function
`foo(a, b, c)` returning 42 (untyped, no ttl). -/
def c9MixedSecond : PyRet × Cache :=
  let c1 := memoizedCall c9Start (fun _ _ => .pyInt 42) "foo" "m.foo:"
    ["a", "b", "c"] false Option.none [.pyInt 1, .pyInt 2, .pyInt 3] []
  memoizedCall c1.2 (fun _ _ => .pyInt 42) "foo" "m.foo:" ["a", "b", "c"] false
    Option.none [.pyInt 1] [("b", .pyInt 2), ("c", .pyInt 3)]

/-- After memoized `f(1)` then `f(1.0)` with `typed=True` on a function
`f(x)` returning its argument. -/
def c9TypedSecond : PyRet × Cache :=
  let c1 := memoizedCall c9Start (fun args _ => args.headD (.pyInt 0)) "f" "m.f:"
    ["x"] true Option.none [.pyInt 1] []
  memoizedCall c1.2 (fun args _ => args.headD (.pyInt 0)) "f" "m.f:" ["x"] true
    Option.none [.pyFloat 1] []

/-- After memoized `f(1)` then `f(1.0)` with `typed=False`. -/
def c9UntypedSecond : PyRet × Cache :=
  let c1 := memoizedCall c9Start (fun args _ => args.headD (.pyInt 0)) "f" "m.f:"
    ["x"] false Option.none [.pyInt 1] []
  memoizedCall c1.2 (fun args _ => args.headD (.pyInt 0)) "f" "m.f:" ["x"] false
    Option.none [.pyFloat 1] []

/-- Claim C9: (1) a call passing a prefix of its arguments positionally
and the rest by keyword derives the same cache key as the fully
positional call of the same values (for any argspec with distinct
parameter names), so semantically identical call forms occupy one
entry; (2) concretely, `foo(1,2,3)` then `foo(1,b=2,c=3)` leave one
cached entry and the second call returns the cached 42; (3) with
`typed=True`, `f(1)` and `f(1.0)` derive distinct keys and occupy two
entries; (4) with `typed=False` they derive the same key and occupy one
entry — the second call even returns the int 1 cached by `f(1)`. -/
theorem c9_memoize_key_semantics (names : List String) (vals : List PyVal)
    (n : Nat) (fname pfx : String) (typed persist : Bool) (hnd : names.Nodup)
    (hn : n ≤ vals.length) (hlen : vals.length ≤ names.length) :
    (_make_memoize_key fname (vals.take n) ((names.drop n).zip (vals.drop n))
        typed names pfx persist =
      _make_memoize_key fname vals [] typed names pfx persist) ∧
    (c9MixedSecond.2.cache.length = 1 ∧ c9MixedSecond.1 = .val (.pyInt 42)) ∧
    (_make_memoize_key "f" [.pyInt 1] [] true ["x"] "m.f:" false ≠
        _make_memoize_key "f" [.pyFloat 1] [] true ["x"] "m.f:" false ∧
      c9TypedSecond.2.cache.length = 2) ∧
    (_make_memoize_key "f" [.pyInt 1] [] false ["x"] "m.f:" false =
        _make_memoize_key "f" [.pyFloat 1] [] false ["x"] "m.f:" false ∧
      c9UntypedSecond.2.cache.length = 1 ∧
      c9UntypedSecond.1 = .val (.pyInt 1)) := by
  refine ⟨?_, by decide, by decide, by decide⟩
  exact make_memoize_key_congr fname typed persist names pfx _ _ _ _
    ((normalizeArgs_split names vals n hnd hn hlen).trans rfl)

/-- Witness for C9: `foo(1, b=2, c=3)` (one positional argument, two
keyword) derives the same key as `foo(1, 2, 3)`. -/
theorem c9_memoize_key_semantics_witness :
    _make_memoize_key "foo" ([PyVal.pyInt 1, .pyInt 2, .pyInt 3].take 1)
        ((["a", "b", "c"].drop 1).zip ([PyVal.pyInt 1, .pyInt 2, .pyInt 3].drop 1))
        false ["a", "b", "c"] "m.foo:" false =
      _make_memoize_key "foo" [PyVal.pyInt 1, .pyInt 2, .pyInt 3] [] false
        ["a", "b", "c"] "m.foo:" false :=
  (c9_memoize_key_semantics ["a", "b", "c"] [.pyInt 1, .pyInt 2, .pyInt 3] 1
      "foo" "m.foo:" false false (by decide) (by decide) (by decide)).1

/-! ## Claim C8 — the LFU frequency index purge

`LFUCache._delete` (lfu.py lines 62-70) is meant to purge the deleted
key from `_access_counts` after delegating to the base `_delete`.  The
claim is checked against the call surface of the two files: lfu.py
imports `RemovalCause` from `.cache` and forwards a `cause` argument to
`Cache._delete`, neither of which exists in cache.py. -/

/-- The formal parameter list of `Cache._delete` as defined in cache.py
(line 397): `def _delete(self, key)`. -/
def cacheDeleteParams : List String := ["self", "key"]

/-- The positional arguments the call `super()._delete(key, cause)` in
`LFUCache._delete` (lfu.py line 63) passes to `Cache._delete`,
including the implicitly bound `self`. -/
def lfuSuperDeleteArgs : List String := ["self", "key", "cause"]

/-- The names bound at module level by cache.py (its importable
surface, imports aside): the type aliases and sentinels, the `Cache`
class and the two module functions. -/
def cacheModuleNames : List String :=
  ["F", "T_DECORATOR", "T_TTL", "T_FILTER", "UNSET", "Cache",
   "_make_memoize_key", "_hash_value"]

/-- Claim C8 (code bug): `LFUCache._delete` cannot purge anything —
lfu.py line 6 imports `RemovalCause` from `.cache`, a name cache.py
never defines (so `import cacheout` itself fails), and its
`super()._delete(key, cause)` call passes one more positional argument
than `Cache._delete(self, key)` accepts, so every delete/set/eviction
path on an LFU cache would raise TypeError before the
`_access_counts` purge line runs. -/
theorem c8_lfu_delete_broken :
    lfuSuperDeleteArgs.length ≠ cacheDeleteParams.length ∧
    "RemovalCause" ∉ cacheModuleNames := by
  decide

end Cacheout
